import Mathlib

/-!
Shallow embedding of `flask_potion/backends/__init__.py`: the abstract
`Manager` backend contract and the `Pagination` value class, together with
theorems checking the specification's claims against the code.

Python integers are embedded as `Int` (or `Nat` where the source value is a
length), Python lists as `List`, fallible code as `Except`, and the in-place
mutation of the shared `meta` configuration bag as explicit state passing
(`Meta → Except InitError Meta`).
-/

namespace Potion

/-! ## Pagination -/

/-- Clamp one endpoint of a Python slice: a negative index counts from the
end of the sequence, and both endpoints are clamped into `[0, n]`.
`n` is the length of the sequence. -/
def pySliceIndex (n : Int) (i : Int) : Int :=
  if i < 0 then max 0 (n + i) else min i n

/-- Python's `l[start:stop]` slice on a list (step 1): the elements at
positions `[pySliceIndex n start, pySliceIndex n stop)`. -/
def pySlice {α : Type} (l : List α) (start stop : Int) : List α :=
  (l.take (pySliceIndex (l.length : Int) stop).toNat).drop
    (pySliceIndex (l.length : Int) start).toNat

/-- Exact integer ceiling of `a / b` for `b > 0`: the embedding of the
source's `int(ceil(a / b))` (true division) in exact arithmetic.
`Int./` is Euclidean division, which is floor division for `b > 0`. -/
def pyCeilDiv (a b : Int) : Int :=
  -((-a) / b)

/-- `Pagination(items, page, per_page, total)` from the source: a plain
record of an already-sliced window plus paging metadata. -/
structure Pagination (α : Type) where
  items : List α
  page : Int
  per_page : Int
  total : Int
deriving DecidableEq

/-- `Pagination.pages`: `max(1, int(ceil(self.total / self.per_page)))`. -/
def Pagination.pages {α : Type} (p : Pagination α) : Int :=
  max 1 (pyCeilDiv p.total p.per_page)

/-- `Pagination.has_prev`: `self.page > 1`. -/
def Pagination.has_prev {α : Type} (p : Pagination α) : Bool :=
  p.page > 1

/-- `Pagination.has_next`: `self.page < self.pages`. -/
def Pagination.has_next {α : Type} (p : Pagination α) : Bool :=
  p.page < p.pages

/-- `Pagination.from_list(cls, items, page, per_page)`:
`start = per_page * (page - 1)`, then
`Pagination(items[start:start + per_page], page, per_page, len(items))`. -/
def Pagination.from_list {α : Type} (items : List α) (page per_page : Int) :
    Pagination α :=
  let start := per_page * (page - 1)
  ⟨pySlice items start (start + per_page), page, per_page, (items.length : Int)⟩

/-! ### Slice helper lemmas -/

lemma pySlice_of_nonneg {α : Type} (l : List α) (s t : Int)
    (hs : 0 ≤ s) (ht : 0 ≤ t) :
    pySlice l s t = (l.drop s.toNat).take (t.toNat - s.toNat) := by
  unfold pySlice pySliceIndex
  rw [if_neg (not_lt.2 hs), if_neg (not_lt.2 ht)]
  have hmt : (min t (l.length : Int)).toNat = min t.toNat l.length := by omega
  have hms : (min s (l.length : Int)).toNat = min s.toNat l.length := by omega
  rw [hmt, hms]
  have htake : l.take (min t.toNat l.length) = l.take t.toNat := by
    rcases le_total t.toNat l.length with h | h
    · rw [min_eq_left h]
    · rw [min_eq_right h, List.take_length, List.take_of_length_le h]
  rw [htake]
  rcases le_total s.toNat l.length with h | h
  · rw [min_eq_left h, List.drop_take]
  · rw [min_eq_right h]
    have h1 : (l.take t.toNat).drop l.length = [] := by
      apply List.drop_eq_nil_of_le
      rw [List.length_take]
      omega
    have h2 : l.drop s.toNat = [] := List.drop_eq_nil_of_le h
    rw [h1, h2, List.take_nil]

lemma from_list_items_eq {α : Type} (items : List α) (page per_page : Int)
    (h1 : 1 ≤ page) (h2 : 0 < per_page) :
    (Pagination.from_list items page per_page).items
      = (items.drop (per_page * (page - 1)).toNat).take per_page.toNat := by
  have hs : 0 ≤ per_page * (page - 1) := by
    apply mul_nonneg h2.le
    omega
  have ht : 0 ≤ per_page * (page - 1) + per_page := by omega
  show pySlice items (per_page * (page - 1)) (per_page * (page - 1) + per_page)
      = _
  rw [pySlice_of_nonneg items _ _ hs ht]
  congr 1
  omega

/-! ## Claim theorems: Pagination -/

/-- Claim C1: for every list `items`, every `per_page > 0` and every
`page ≥ 1`, `Pagination.from_list items page per_page` has `items` equal to
the slice of `items` from index `per_page*(page-1)` (inclusive) to
`per_page*(page-1) + per_page` (exclusive), `total` equal to the length of
`items`, and when the start index is at or past the end of the list the
window is empty (and the function is total, so nothing is raised). -/
theorem from_list_slices_correctly {α : Type} (items : List α)
    (page per_page : Int) (h1 : 1 ≤ page) (h2 : 0 < per_page) :
    (Pagination.from_list items page per_page).items
      = (items.drop (per_page * (page - 1)).toNat).take per_page.toNat
    ∧ (Pagination.from_list items page per_page).total = (items.length : Int)
    ∧ ((items.length : Int) ≤ per_page * (page - 1) →
        (Pagination.from_list items page per_page).items = []) := by
  refine ⟨from_list_items_eq items page per_page h1 h2, rfl, fun hle => ?_⟩
  rw [from_list_items_eq items page per_page h1 h2]
  have : items.drop (per_page * (page - 1)).toNat = [] := by
    apply List.drop_eq_nil_of_le
    omega
  rw [this, List.take_nil]

/-- Witness for C1 at `items = [10, 20, 30, 40, 50]`, `page = 2`,
`per_page = 2`. -/
theorem from_list_slices_correctly_witness :
    (Pagination.from_list [10, 20, 30, 40, 50] 2 2).items
      = (([10, 20, 30, 40, 50] : List Nat).drop ((2 : Int) * (2 - 1)).toNat).take
          (2 : Int).toNat
    ∧ (Pagination.from_list ([10, 20, 30, 40, 50] : List Nat) 2 2).total
        = (([10, 20, 30, 40, 50] : List Nat).length : Int)
    ∧ ((([10, 20, 30, 40, 50] : List Nat).length : Int) ≤ (2 : Int) * (2 - 1) →
        (Pagination.from_list ([10, 20, 30, 40, 50] : List Nat) 2 2).items = []) :=
  from_list_slices_correctly [10, 20, 30, 40, 50] 2 2 (by decide) (by decide)

/-- Claim C2: for `total ≥ 0` and `per_page > 0`, `pages` equals
`max 1 ⌈total / per_page⌉` (exact rational ceiling), and in particular
`pages = 1` when `total = 0`. -/
theorem pages_eq_max_one_ceil {α : Type} (p : Pagination α)
    (ht : 0 ≤ p.total) (hp : 0 < p.per_page) :
    p.pages = max 1 ⌈(p.total : ℚ) / (p.per_page : ℚ)⌉
    ∧ (p.total = 0 → p.pages = 1) := by
  constructor
  · show max 1 (-((-p.total) / p.per_page)) = _
    congr 1
    have hpp : ((p.per_page.toNat : ℕ) : Int) = p.per_page := Int.toNat_of_nonneg hp.le
    have hppq : ((p.per_page.toNat : ℕ) : ℚ) = (p.per_page : ℚ) := by
      exact_mod_cast congrArg (fun z : Int => (z : ℚ)) hpp
    have hq : (p.total : ℚ) / (p.per_page : ℚ)
        = -((((-p.total : Int) : ℚ)) / ((p.per_page.toNat : ℕ) : ℚ)) := by
      rw [hppq]
      push_cast
      ring
    rw [hq, Int.ceil_neg, Rat.floor_intCast_div_natCast, hpp]
  · intro h0
    show max 1 (-((-p.total) / p.per_page)) = 1
    rw [h0]
    simp

/-- Witness for C2 at `total = 7`, `per_page = 3`. -/
theorem pages_eq_max_one_ceil_witness :
    (Pagination.mk ([] : List Nat) 1 3 7).pages
      = max 1 ⌈(((Pagination.mk ([] : List Nat) 1 3 7).total : ℚ))
          / (((Pagination.mk ([] : List Nat) 1 3 7).per_page : ℚ))⌉
    ∧ ((Pagination.mk ([] : List Nat) 1 3 7).total = 0
        → (Pagination.mk ([] : List Nat) 1 3 7).pages = 1) :=
  pages_eq_max_one_ceil (Pagination.mk ([] : List Nat) 1 3 7)
    (by decide) (by decide)

/-- Claim C3: for every `Pagination`, `has_prev` is true exactly when
`page > 1` and `has_next` is true exactly when `page < pages` (this holds
for all values of the fields, in particular whenever `per_page > 0` and
`total ≥ 0`). -/
theorem has_prev_has_next_iff {α : Type} (p : Pagination α) :
    ((p.has_prev = true) ↔ 1 < p.page)
    ∧ ((p.has_next = true) ↔ p.page < p.pages) := by
  constructor
  · simp [Pagination.has_prev]
  · simp [Pagination.has_next]

/-- Claim C10: `from_list` is total for `page ≤ 0` as well. With `page = 0`
the window is always empty; `total` is the length of the input for every
`page`; with `page < 0` the start index counts from the end of the list
(when it still lands inside the list the window starts at offset
`length + per_page*(page-1)` from the front, i.e. `per_page*(1-page)` before
the end), so the window can be non-empty, as at
`items = [0,…,9]`, `page = -1`, `per_page = 3`, which yields `[4, 5, 6]`. -/
theorem from_list_nonpositive_page :
    (∀ (α : Type) (items : List α) (per_page : Int), 0 < per_page →
        (Pagination.from_list items 0 per_page).items = [])
    ∧ (∀ (α : Type) (items : List α) (page per_page : Int),
        (Pagination.from_list items page per_page).total = (items.length : Int))
    ∧ (∀ (α : Type) (items : List α) (page per_page : Int), 0 < per_page →
        page < 0 → 0 ≤ (items.length : Int) + per_page * (page - 1) →
        (Pagination.from_list items page per_page).items
          = (items.drop ((items.length : Int) + per_page * (page - 1)).toNat).take
              per_page.toNat)
    ∧ (Pagination.from_list [0, 1, 2, 3, 4, 5, 6, 7, 8, 9] (-1) 3).items
        = [4, 5, 6] := by
  refine ⟨?_, ?_, ?_, ?_⟩
  · intro α items per_page hp
    show pySlice items (per_page * (0 - 1)) (per_page * (0 - 1) + per_page) = []
    unfold pySlice pySliceIndex
    have hstop : per_page * (0 - 1) + per_page = 0 := by ring
    rw [hstop]
    have h0 : ¬ ((0 : Int) < 0) := by omega
    rw [if_neg h0]
    have : (min (0 : Int) (items.length : Int)).toNat = 0 := by omega
    rw [this]
    simp
  · intro α items page per_page
    rfl
  · intro α items page per_page hp hpage hin
    set s := per_page * (page - 1) with hs_def
    have hs_neg : s < 0 := by
      have : page - 1 ≤ -1 := by omega
      have h2 : per_page * (page - 1) ≤ per_page * (-1) := by
        apply mul_le_mul_of_nonneg_left this hp.le
      omega
    have ht_neg : s + per_page < 0 := by
      have : page - 1 ≤ -2 := by omega
      have h2 : per_page * (page - 1) ≤ per_page * (-2) := by
        apply mul_le_mul_of_nonneg_left this hp.le
      omega
    show pySlice items s (s + per_page) = _
    unfold pySlice pySliceIndex
    rw [if_pos hs_neg, if_pos ht_neg]
    have hlo : (max 0 ((items.length : Int) + s)).toNat
        = ((items.length : Int) + s).toNat := by omega
    have hhi : (max 0 ((items.length : Int) + (s + per_page))).toNat
        = ((items.length : Int) + s).toNat + per_page.toNat := by omega
    rw [hlo, hhi]
    have hdt := List.drop_take (((items.length : Int) + s).toNat + per_page.toNat)
      (((items.length : Int) + s).toNat) items
    rw [hdt]
    congr 1
    omega
  · decide

/-- Witness for C10: the quantified conjuncts applied at concrete inputs. -/
theorem from_list_nonpositive_page_witness :
    (Pagination.from_list ([3, 1, 4] : List Nat) 0 2).items = []
    ∧ (Pagination.from_list ([3, 1, 4] : List Nat) (-5) 2).total
        = (([3, 1, 4] : List Nat).length : Int)
    ∧ (Pagination.from_list ([0, 1, 2, 3, 4, 5, 6, 7, 8, 9] : List Nat) (-1) 3).items
        = (([0, 1, 2, 3, 4, 5, 6, 7, 8, 9] : List Nat).drop
            (((([0, 1, 2, 3, 4, 5, 6, 7, 8, 9] : List Nat).length : Int)
              + (3 : Int) * ((-1) - 1)).toNat)).take (3 : Int).toNat :=
  ⟨from_list_nonpositive_page.1 Nat [3, 1, 4] 2 (by decide),
   from_list_nonpositive_page.2.1 Nat [3, 1, 4] (-5) 2,
   from_list_nonpositive_page.2.2.1 Nat [0, 1, 2, 3, 4, 5, 6, 7, 8, 9] (-1) 3
     (by decide) (by decide) (by decide)⟩

/-! ## Fields and filters -/

/-- Modelled from the spec: the field-declaration system (`flask_potion.fields`)
is an external collaborator; the spec fixes the closed set of built-in field
type identities (String, Integer, Number, Boolean, Array, Object, Date,
DateTime) and allows custom kinds beyond them. -/
inductive FieldKind where
  | string
  | integer
  | number
  | boolean
  | array
  | object
  | date
  | dateTime
  | custom (typeName : String)
deriving DecidableEq

/-- Modelled from the spec: a Field is a typed descriptor with an optional
explicit storage attribute name (`field.attribute`, `None` when unset). -/
structure Field where
  kind : FieldKind
  attr : Option String
deriving DecidableEq

/-- Python truthiness of `a or d` for an optional string `a`: `None` and the
empty string are falsy, so they fall through to the default. -/
def pyOrString : Option String → String → String
  | none, d => d
  | some s, d => if s = "" then d else s

/-- A constructed filter: comparator name, the field it applies to, and the
storage attribute it is bound to. (The per-comparator filter classes live in
the external `flask_potion.filters` module; this layer only fixes the bound
data.) -/
structure Filter where
  name : String
  field : Field
  attr : String
deriving DecidableEq

/-- `Manager._create_filter(filter_class, name, field, attribute)`:
constructs the filter bound to `field.attribute or attribute`. -/
def create_filter (name : String) (field : Field) (attr : String) : Filter :=
  ⟨name, field, pyOrString field.attr attr⟩

/-- Modelled from the spec: `filters_for_fields` lives in the external
`flask_potion.filters` module; per the spec it returns, for each schema
field, the comparator names applicable to that field's declared type
(a type→comparator-names table) intersected with any explicit per-field
filter allow-list from the resource configuration. -/
def filters_for_fields (schemaFields : List (String × Field))
    (allowed : String → Option (List String))
    (filters_by_type : FieldKind → List String) :
    List (String × List String) :=
  schemaFields.map fun nf =>
    (nf.1, (filters_by_type nf.2.kind).filter fun c =>
      match allowed nf.1 with
      | none => true
      | some al => al.contains c)

/-- The `Manager.filters` cached property: for every field and every
surviving comparator name, build the Filter via `_create_filter`, passing
`fields[field_name]` and the field name as the default attribute. -/
def manager_filters (schemaFields : List (String × Field))
    (allowed : String → Option (List String))
    (filters_by_type : FieldKind → List String) :
    List (String × List (String × Filter)) :=
  (filters_for_fields schemaFields allowed filters_by_type).map fun p =>
    (p.1, p.2.map fun cname =>
      (cname, create_filter cname
        ((schemaFields.lookup p.1).getD ⟨FieldKind.string, none⟩) p.1))

/-- `Manager.is_sortable_field(field)`: the source's
`isinstance(field, (String, Boolean, Number, Integer, Date, DateTime))`
membership test, read over the closed set of field kinds. -/
def is_sortable_field (f : Field) : Bool :=
  match f.kind with
  | .string => true
  | .boolean => true
  | .number => true
  | .integer => true
  | .date => true
  | .dateTime => true
  | _ => false

/-! ## Python-type-to-field-class inference -/

/-- The Python types appearing as keys of the inference table in
`Manager._get_field_from_python_type`, plus any other type. -/
inductive PyType where
  | str
  | int
  | float
  | bool
  | list
  | dict
  | date
  | datetime
  | other (typeName : String)
deriving DecidableEq

/-- Errors raised as `RuntimeError` at Manager construction/definition time. -/
inductive InitError where
  | multipleKeys (matcher_type : String) (resourceName : String)
  | noFieldClass (typeName : String)
deriving DecidableEq

/-- The `RuntimeError` message text built by the source. -/
def InitError.message : InitError → String
  | .multipleKeys t r => "Multiple keys of type " ++ t ++ " defined for " ++ r
  | .noFieldClass n => "No appropriate field class for \"" ++ n ++ "\" type found"

/-- `Manager._get_field_from_python_type(python_type)`: the dict lookup
`{str: String, six.text_type: String, int: Integer, float: Number,
bool: Boolean, list: Array, dict: Object, date: Date, datetime: DateTime}`,
with `KeyError` re-raised as a `RuntimeError` naming the type. -/
def get_field_from_python_type : PyType → Except InitError FieldKind
  | .str => .ok .string
  | .int => .ok .integer
  | .float => .ok .number
  | .bool => .ok .boolean
  | .list => .ok .array
  | .dict => .ok .object
  | .date => .ok .date
  | .datetime => .ok .dateTime
  | .other n => .error (.noFieldClass n)

/-! ## Key converters and Manager construction -/

/-- A `natural_key` declaration in the resource meta: a single property name
or a list/tuple of property names. -/
inductive NaturalKey where
  | single (prop : String)
  | multiple (props : List String)
deriving DecidableEq

/-- Modelled from the spec: key-converter objects come from the external
`flask_potion.natural_keys` module; each carries a matcher type, the
properties it reads, and (after `bind`) the resource it is bound to. -/
structure KeyConverter where
  matcher_type : String
  props : List String
  boundTo : Option String
deriving DecidableEq

/-- Modelled from the spec: `PropertyKey(name)` is the single-property key
converter; its matcher type is determined by the property it wraps. -/
def PropertyKey (prop : String) : KeyConverter :=
  ⟨"property:" ++ prop, [prop], none⟩

/-- Modelled from the spec: `PropertiesKey(*names)` is the composite
(tuple-of-properties) key converter; its matcher type is the composite
(array) matcher. -/
def PropertiesKey (props : List String) : KeyConverter :=
  ⟨"properties", props, none⟩

/-- Modelled from the spec: `k.bind(resource)` attaches the converter to the
resource; binding does not change the matcher type. -/
def KeyConverter.bind (k : KeyConverter) (resource : String) : KeyConverter :=
  { k with boundTo := some resource }

/-- The resource `meta` configuration bag, restricted to the keys this layer
touches. `natural_key = none` models the key being absent; `key_converters`
defaults to the empty tuple. -/
structure Meta where
  name : String
  natural_key : Option NaturalKey
  key_converters : List KeyConverter
  key_converters_by_type : List (String × KeyConverter)
deriving DecidableEq

/-- The loop at the end of `_init_key_converters`: index the bound
converters by matcher type, raising on a duplicate. The dict is an
association list extended at the back (Python dict insertion order). -/
def buildByType (resourceName : String) :
    List KeyConverter → List (String × KeyConverter) →
    Except InitError (List (String × KeyConverter))
  | [], acc => .ok acc
  | k :: ks, acc =>
    if (acc.lookup k.matcher_type).isSome then
      .error (.multipleKeys k.matcher_type resourceName)
    else
      buildByType resourceName ks (acc ++ [(k.matcher_type, k)])

/-- The converter appended by the `natural_key` branch of
`_init_key_converters`, if any. -/
def naturalKeyConverter : Option NaturalKey → List KeyConverter
  | some (.single s) => [PropertyKey s]
  | some (.multiple ps) => [PropertiesKey ps]
  | none => []

/-- The full list of declared key converters after natural-key resolution:
`meta['key_converters']` plus the converter derived from `natural_key`. -/
def resolvedConverters (meta : Meta) : List KeyConverter :=
  meta.key_converters ++ naturalKeyConverter meta.natural_key

/-- `Manager._init_key_converters(resource, meta)`: append the natural-key
converter to `meta['key_converters']`, bind every converter to the resource,
and index the bound converters by matcher type, raising `RuntimeError` on a
duplicate matcher type. The source mutates `meta` in place; here the updated
`meta` is returned. -/
def init_key_converters (resource : String) (meta : Meta) :
    Except InitError Meta :=
  match buildByType meta.name
      ((resolvedConverters meta).map fun k => KeyConverter.bind k resource) [] with
  | .error e => .error e
  | .ok dict =>
    .ok { meta with
      key_converters := (resolvedConverters meta).map fun k =>
        KeyConverter.bind k resource,
      key_converters_by_type := dict }

/-- `Manager.__init__(self, resource, model)`: store the resource and model
and run `_init_key_converters`. The stored fields are returned alongside the
updated meta. -/
def manager_init (resource : String) (model : String) (meta : Meta) :
    Except InitError (String × String × Meta) :=
  match init_key_converters resource meta with
  | .error e => .error e
  | .ok meta2 => .ok (resource, model, meta2)

/-! ## Manager.first -/

/-- The `ItemNotFound(resource, where=where)` exception data: the resource
and the `where` clause it was queried with. -/
structure ItemNotFound (W : Type) where
  resource : String
  whereClause : Option W
deriving DecidableEq

/-- A Manager as far as `first` is concerned: its resource and its
backend-defined `instances(where, sort)` query returning a sequence. -/
structure Manager (Item W S : Type) where
  resource : String
  instances : Option W → Option S → List Item

/-- `Manager.first(self, where=None, sort=None)`:
`return self.instances(where, sort)[0]`, with the `IndexError` on an empty
sequence re-raised as `ItemNotFound(self.resource, where=where)`. -/
def Manager.first {Item W S : Type} (m : Manager Item W S)
    (whereClause : Option W) (sort : Option S) :
    Except (ItemNotFound W) Item :=
  match m.instances whereClause sort with
  | [] => .error ⟨m.resource, whereClause⟩
  | x :: _ => .ok x

/-! ## Association-list helper lemmas -/

lemma lookup_append_none {β : Type} (l1 l2 : List (String × β)) (a : String)
    (h1 : l1.lookup a = none) : (l1 ++ l2).lookup a = l2.lookup a := by
  induction l1 with
  | nil => rfl
  | cons p l1 ih =>
    cases p with
    | mk x y =>
      by_cases hax : a = x
      · subst hax
        rw [List.lookup_cons] at h1
        simp at h1
      · have hb : (a == x) = false := beq_false_of_ne hax
        rw [List.cons_append, List.lookup_cons, hb]
        rw [List.lookup_cons, hb] at h1
        exact ih h1

lemma lookup_of_mem_nodup {β : Type} (l : List (String × β))
    (hnd : (l.map Prod.fst).Nodup) (a : String) (b : β) (hb : (a, b) ∈ l) :
    l.lookup a = some b := by
  induction l with
  | nil => cases hb
  | cons p l ih =>
    cases p with
    | mk x y =>
      rcases List.mem_cons.1 hb with h | h
      · cases h
        rw [List.lookup_cons]
        simp
      · have hax : a ≠ x := by
          intro hax
          subst hax
          have : a ∈ l.map Prod.fst := List.mem_map.2 ⟨(a, b), h, rfl⟩
          exact (List.nodup_cons.1 hnd).1 this
        rw [List.lookup_cons, beq_false_of_ne hax]
        exact ih (List.nodup_cons.1 hnd).2 h

lemma lookup_append_isSome {β : Type} (l1 l2 : List (String × β)) (a : String)
    (h1 : (l1.lookup a).isSome = true) :
    ((l1 ++ l2).lookup a).isSome = true := by
  induction l1 with
  | nil => simp at h1
  | cons p l1 ih =>
    cases p with
    | mk x y =>
      rw [List.cons_append, List.lookup_cons]
      rw [List.lookup_cons] at h1
      cases hax : (a == x) with
      | true => rfl
      | false =>
        rw [hax] at h1
        exact ih h1

/-! ## buildByType: success and failure characterization -/

lemma buildByType_nil (r : String) (acc : List (String × KeyConverter)) :
    buildByType r [] acc = .ok acc :=
  rfl

lemma buildByType_cons (r : String) (k : KeyConverter)
    (ks : List KeyConverter) (acc : List (String × KeyConverter)) :
    buildByType r (k :: ks) acc
      = if (acc.lookup k.matcher_type).isSome then
          .error (.multipleKeys k.matcher_type r)
        else buildByType r ks (acc ++ [(k.matcher_type, k)]) :=
  rfl

lemma lookup_singleton_of_ne {β : Type} (a b : String) (v : β) (h : a ≠ b) :
    List.lookup a [(b, v)] = none := by
  rw [List.lookup_cons, beq_false_of_ne h]
  rfl

lemma buildByType_ok_of_nodup (r : String) (ks : List KeyConverter)
    (acc : List (String × KeyConverter))
    (hnd : (ks.map KeyConverter.matcher_type).Nodup)
    (hacc : ∀ k ∈ ks, acc.lookup k.matcher_type = none) :
    buildByType r ks acc
      = .ok (acc ++ ks.map fun k => (k.matcher_type, k)) := by
  induction ks generalizing acc with
  | nil => simp [buildByType_nil]
  | cons k ks ih =>
    rw [List.map_cons, List.nodup_cons] at hnd
    rw [buildByType_cons, hacc k (List.mem_cons_self k ks)]
    rw [if_neg (by simp)]
    have hrec := ih (acc ++ [(k.matcher_type, k)]) hnd.2 ?_
    · rw [hrec]
      simp [List.append_assoc]
    · intro k' hk'
      have hne : k'.matcher_type ≠ k.matcher_type := by
        intro he
        exact hnd.1 (he ▸ List.mem_map.2 ⟨k', hk', rfl⟩)
      rw [lookup_append_none _ _ _ (hacc k' (List.mem_cons_of_mem k hk'))]
      exact lookup_singleton_of_ne _ _ _ hne

lemma buildByType_error_exists (r : String) (ks : List KeyConverter)
    (acc : List (String × KeyConverter))
    (hbad : ¬ (ks.map KeyConverter.matcher_type).Nodup
        ∨ ∃ k ∈ ks, (acc.lookup k.matcher_type).isSome = true) :
    ∃ t, buildByType r ks acc = .error (.multipleKeys t r)
      ∧ t ∈ ks.map KeyConverter.matcher_type := by
  induction ks generalizing acc with
  | nil =>
    rcases hbad with h | ⟨k, hk, _⟩
    · exact absurd List.nodup_nil h
    · cases hk
  | cons k ks ih =>
    by_cases hc : (acc.lookup k.matcher_type).isSome = true
    · refine ⟨k.matcher_type, ?_, by simp⟩
      rw [buildByType_cons, if_pos hc]
    · have hn : acc.lookup k.matcher_type = none := by
        cases h : acc.lookup k.matcher_type
        · rfl
        · rw [h] at hc
          simp at hc
      have hbad2 : ¬ (ks.map KeyConverter.matcher_type).Nodup
          ∨ ∃ k' ∈ ks,
              (((acc ++ [(k.matcher_type, k)]).lookup k'.matcher_type).isSome
                = true) := by
        rcases hbad with h | ⟨k', hk', hsome⟩
        · by_cases hmem : k.matcher_type ∈ ks.map KeyConverter.matcher_type
          · obtain ⟨k', hk', hmt⟩ := List.mem_map.1 hmem
            refine Or.inr ⟨k', hk', ?_⟩
            rw [lookup_append_none _ _ _ (hmt ▸ hn), hmt]
            rw [List.lookup_cons]
            simp
          · refine Or.inl fun hnd => ?_
            rw [List.map_cons] at h
            exact h (List.nodup_cons.2 ⟨hmem, hnd⟩)
        · rcases List.mem_cons.1 hk' with he | hk'mem
          · subst he
            exact absurd hsome hc
          · exact Or.inr ⟨k', hk'mem, lookup_append_isSome _ _ _ hsome⟩
      obtain ⟨t, ht, htmem⟩ := ih (acc ++ [(k.matcher_type, k)]) hbad2
      refine ⟨t, ?_, List.mem_cons_of_mem _ htmem⟩
      rw [buildByType_cons, if_neg hc]
      exact ht

lemma buildByType_error_dup (r : String) (ks : List KeyConverter)
    (acc : List (String × KeyConverter)) (t : String)
    (herr : buildByType r ks acc = .error (.multipleKeys t r)) :
    ((acc.lookup t).isSome = true ∧ t ∈ ks.map KeyConverter.matcher_type)
    ∨ 2 ≤ (ks.map KeyConverter.matcher_type).count t := by
  induction ks generalizing acc with
  | nil => simp [buildByType_nil] at herr
  | cons k ks ih =>
    by_cases hc : (acc.lookup k.matcher_type).isSome = true
    · have hstep : buildByType r (k :: ks) acc
          = .error (.multipleKeys k.matcher_type r) := by
        rw [buildByType_cons, if_pos hc]
      rw [hstep] at herr
      have hte : k.matcher_type = t := by
        simpa using herr
      subst hte
      exact Or.inl ⟨hc, by simp⟩
    · have hrec : buildByType r ks (acc ++ [(k.matcher_type, k)])
          = .error (.multipleKeys t r) := by
        rw [buildByType_cons, if_neg hc] at herr
        exact herr
      rcases ih (acc ++ [(k.matcher_type, k)]) hrec with ⟨hsome, htmem⟩ | hcount
      · by_cases hacc : (acc.lookup t).isSome = true
        · exact Or.inl ⟨hacc, List.mem_cons_of_mem _ htmem⟩
        · have hn : acc.lookup t = none := by
            cases h : acc.lookup t
            · rfl
            · rw [h] at hacc
              simp at hacc
          rw [lookup_append_none _ _ _ hn, List.lookup_cons] at hsome
          have hte : t = k.matcher_type := by
            cases hbe : (t == k.matcher_type) with
            | true => exact beq_iff_eq.1 hbe
            | false =>
              rw [hbe] at hsome
              simp at hsome
          refine Or.inr ?_
          rw [List.map_cons, hte, List.count_cons_self]
          have : 0 < (ks.map KeyConverter.matcher_type).count k.matcher_type :=
            List.count_pos_iff.mpr (hte ▸ htmem)
          omega
      · refine Or.inr ?_
        rw [List.map_cons, List.count_cons]
        omega

lemma lookup_map_matcher (ks : List KeyConverter)
    (hnd : (ks.map KeyConverter.matcher_type).Nodup)
    (k : KeyConverter) (hk : k ∈ ks) :
    (ks.map fun k => (k.matcher_type, k)).lookup k.matcher_type = some k := by
  apply lookup_of_mem_nodup
  · rw [List.map_map]
    exact hnd
  · exact List.mem_map.2 ⟨k, hk, rfl⟩

/-! ## Claim theorems: Manager.first -/

/-- Claim C4: `first(where, sort)` raises `ItemNotFound` carrying the
manager's resource and the original `where` clause exactly when
`instances(where, sort)` is empty, and returns its first element
otherwise. -/
theorem first_returns_head_or_not_found {Item W S : Type}
    (m : Manager Item W S) (w : Option W) (s : Option S) :
    (m.instances w s = [] → m.first w s = .error ⟨m.resource, w⟩)
    ∧ (∀ x xs, m.instances w s = x :: xs → m.first w s = .ok x) := by
  constructor
  · intro h
    unfold Manager.first
    rw [h]
  · intro x xs h
    unfold Manager.first
    rw [h]

/-- Witness for C4: a manager whose `instances` is empty errors with its
resource and `where` clause; one with a non-empty result returns the head. -/
theorem first_returns_head_or_not_found_witness :
    (Manager.mk "book" (fun _ _ => ([] : List Nat))
        : Manager Nat Unit Unit).first (some ()) none
      = .error ⟨"book", some ()⟩
    ∧ (Manager.mk "book" (fun _ _ => ([7, 8] : List Nat))
        : Manager Nat Unit Unit).first (some ()) none = .ok 7 :=
  ⟨(first_returns_head_or_not_found
      (Manager.mk "book" fun _ _ => ([] : List Nat)) (some ()) none).1 rfl,
   (first_returns_head_or_not_found
      (Manager.mk "book" fun _ _ => ([7, 8] : List Nat)) (some ()) none).2
      7 [8] rfl⟩

/-! ## Claim theorems: is_sortable_field and type inference -/

/-- Claim C6: `is_sortable_field` is true exactly for the scalar kinds
String, Boolean, Number, Integer, Date, DateTime, and false for Array,
Object and every custom kind. (The embedding is a pure function, matching
the source method, which only reads its argument.) -/
theorem is_sortable_field_exactly_scalar (f : Field) :
    ((is_sortable_field f = true) ↔
      (f.kind = .string ∨ f.kind = .boolean ∨ f.kind = .number
        ∨ f.kind = .integer ∨ f.kind = .date ∨ f.kind = .dateTime))
    ∧ (∀ a : Option String,
        is_sortable_field ⟨.array, a⟩ = false
        ∧ is_sortable_field ⟨.object, a⟩ = false
        ∧ ∀ n : String, is_sortable_field ⟨.custom n, a⟩ = false) := by
  constructor
  · cases f with
    | mk k a => cases k <;> simp [is_sortable_field]
  · intro a
    exact ⟨rfl, rfl, fun _ => rfl⟩

/-- Claim C8: the native-type inference maps str→String, int→Integer,
float→Number, bool→Boolean, list→Array, dict→Object, date→Date,
datetime→DateTime, and fails on every other type with a configuration
error whose message names the unrecognized type. -/
theorem field_class_inference_table :
    get_field_from_python_type .str = .ok .string
    ∧ get_field_from_python_type .int = .ok .integer
    ∧ get_field_from_python_type .float = .ok .number
    ∧ get_field_from_python_type .bool = .ok .boolean
    ∧ get_field_from_python_type .list = .ok .array
    ∧ get_field_from_python_type .dict = .ok .object
    ∧ get_field_from_python_type .date = .ok .date
    ∧ get_field_from_python_type .datetime = .ok .dateTime
    ∧ ∀ n : String,
        get_field_from_python_type (.other n) = .error (.noFieldClass n)
        ∧ (InitError.noFieldClass n).message
            = "No appropriate field class for \"" ++ n ++ "\" type found" :=
  ⟨rfl, rfl, rfl, rfl, rfl, rfl, rfl, rfl, fun _ => ⟨rfl, rfl⟩⟩

/-! ## Manager construction: key-converter resolution -/

lemma bound_types_eq (r : String) (ks : List KeyConverter) :
    ((ks.map fun k => KeyConverter.bind k r).map KeyConverter.matcher_type)
      = ks.map KeyConverter.matcher_type := by
  rw [List.map_map]
  rfl

lemma manager_init_error_of_dup (r model : String) (m : Meta)
    (hdup : ¬ ((resolvedConverters m).map KeyConverter.matcher_type).Nodup) :
    ∃ t, manager_init r model m = .error (.multipleKeys t m.name)
      ∧ 2 ≤ ((resolvedConverters m).map KeyConverter.matcher_type).count t := by
  have hb : ¬ (((resolvedConverters m).map fun k => KeyConverter.bind k r).map
      KeyConverter.matcher_type).Nodup := by
    rw [bound_types_eq]
    exact hdup
  obtain ⟨t, ht, htm⟩ := buildByType_error_exists m.name
    ((resolvedConverters m).map fun k => KeyConverter.bind k r) [] (Or.inl hb)
  have hcount := buildByType_error_dup m.name
    ((resolvedConverters m).map fun k => KeyConverter.bind k r) [] t ht
  refine ⟨t, ?_, ?_⟩
  · unfold manager_init init_key_converters
    rw [ht]
  · rcases hcount with ⟨hsome, _⟩ | h2
    · simp at hsome
    · rw [bound_types_eq] at h2
      exact h2

lemma manager_init_ok_of_nodup (r model : String) (m : Meta)
    (hnd : ((resolvedConverters m).map KeyConverter.matcher_type).Nodup) :
    manager_init r model m
      = .ok (r, model,
          { m with
            key_converters := (resolvedConverters m).map fun k =>
              KeyConverter.bind k r,
            key_converters_by_type :=
              ((resolvedConverters m).map fun k => KeyConverter.bind k r).map
                fun k => (k.matcher_type, k) }) := by
  have hb : (((resolvedConverters m).map fun k => KeyConverter.bind k r).map
      KeyConverter.matcher_type).Nodup := by
    rw [bound_types_eq]
    exact hnd
  have hok := buildByType_ok_of_nodup m.name
    ((resolvedConverters m).map fun k => KeyConverter.bind k r) [] hb
    (fun _ _ => rfl)
  unfold manager_init init_key_converters
  rw [hok]
  rfl

/-! ## Claim theorems: key converters -/

/-- Claim C5: when the declared key converters (the natural-key-derived one
included) contain a repeated matcher type, Manager construction fails with a
configuration error carrying a matcher type that occurs at least twice and
the resource name, with the message naming both; when all matcher types are
distinct, construction succeeds and the resulting mapping indexes each bound
converter by its matcher type. -/
theorem manager_construction_duplicate_matcher (r model : String) (m : Meta) :
    (¬ ((resolvedConverters m).map KeyConverter.matcher_type).Nodup →
      ∃ t, manager_init r model m = .error (.multipleKeys t m.name)
        ∧ 2 ≤ ((resolvedConverters m).map KeyConverter.matcher_type).count t
        ∧ (InitError.multipleKeys t m.name).message
            = "Multiple keys of type " ++ t ++ " defined for " ++ m.name)
    ∧ (((resolvedConverters m).map KeyConverter.matcher_type).Nodup →
      ∃ m2 : Meta, manager_init r model m = .ok (r, model, m2)
        ∧ m2.key_converters
            = ((resolvedConverters m).map fun k => KeyConverter.bind k r)
        ∧ ∀ k ∈ m2.key_converters,
            m2.key_converters_by_type.lookup k.matcher_type = some k) := by
  constructor
  · intro hdup
    obtain ⟨t, ht, hc⟩ := manager_init_error_of_dup r model m hdup
    exact ⟨t, ht, hc, rfl⟩
  · intro hnd
    refine ⟨_, manager_init_ok_of_nodup r model m hnd, rfl, ?_⟩
    intro k hk
    exact lookup_map_matcher _ (by rw [bound_types_eq]; exact hnd) k hk

/-- Witness for C5: a meta with two converters of matcher type "t1" fails
naming "t1" and the resource; a meta whose converter types are distinct
succeeds. -/
theorem manager_construction_duplicate_matcher_witness :
    (∃ t, manager_init "book" "m"
          (Meta.mk "book" none
            [KeyConverter.mk "t1" [] none, KeyConverter.mk "t1" [] none] [])
        = .error (.multipleKeys t "book")
      ∧ 2 ≤ (((resolvedConverters
            (Meta.mk "book" none
              [KeyConverter.mk "t1" [] none, KeyConverter.mk "t1" [] none] [])).map
            KeyConverter.matcher_type).count t)
      ∧ (InitError.multipleKeys t "book").message
          = "Multiple keys of type " ++ t ++ " defined for " ++ "book")
    ∧ (∃ m2 : Meta, manager_init "spam" "m"
          (Meta.mk "spam" (some (NaturalKey.single "title"))
            [KeyConverter.mk "id" [] none] [])
        = .ok ("spam", "m", m2)
      ∧ m2.key_converters
          = ((resolvedConverters
              (Meta.mk "spam" (some (NaturalKey.single "title"))
                [KeyConverter.mk "id" [] none] [])).map
              fun k => KeyConverter.bind k "spam")
      ∧ ∀ k ∈ m2.key_converters,
          m2.key_converters_by_type.lookup k.matcher_type = some k) :=
  ⟨(manager_construction_duplicate_matcher "book" "m"
      (Meta.mk "book" none
        [KeyConverter.mk "t1" [] none, KeyConverter.mk "t1" [] none] [])).1
      (by decide),
   (manager_construction_duplicate_matcher "spam" "m"
      (Meta.mk "spam" (some (NaturalKey.single "title"))
        [KeyConverter.mk "id" [] none] [])).2 (by decide)⟩

/-- Claim C9: Manager construction mutates the shared meta: with a
`natural_key` declared, a successful construction leaves `key_converters`
one converter longer than declared, and constructing a second Manager over
the same (already mutated) meta appends the natural-key converter again and
fails with the duplicate-matcher-type error. -/
theorem manager_construction_mutates_meta (r model : String) (m : Meta)
    (nk : NaturalKey) (out : String × String × Meta)
    (hnk : m.natural_key = some nk)
    (hok : manager_init r model m = .ok out) :
    out.2.2.key_converters.length = m.key_converters.length + 1
    ∧ ∃ t, manager_init r model out.2.2
        = .error (.multipleKeys t out.2.2.name) := by
  obtain ⟨c, hc⟩ : ∃ c, naturalKeyConverter (some nk) = [c] := by
    cases nk
    · exact ⟨_, rfl⟩
    · exact ⟨_, rfl⟩
  by_cases hnd : ((resolvedConverters m).map KeyConverter.matcher_type).Nodup
  case neg =>
    obtain ⟨t, ht, _⟩ := manager_init_error_of_dup r model m hnd
    rw [ht] at hok
    simp at hok
  case pos =>
    have hinit := manager_init_ok_of_nodup r model m hnd
    rw [hinit] at hok
    injection hok with hout
    subst hout
    constructor
    · show ((resolvedConverters m).map fun k => KeyConverter.bind k r).length = _
      rw [List.length_map]
      unfold resolvedConverters
      rw [hnk, hc, List.length_append]
      rfl
    · have hres2 : resolvedConverters
          { m with
            key_converters := (resolvedConverters m).map fun k =>
              KeyConverter.bind k r,
            key_converters_by_type :=
              ((resolvedConverters m).map fun k => KeyConverter.bind k r).map
                fun k => (k.matcher_type, k) }
          = ((resolvedConverters m).map fun k => KeyConverter.bind k r)
            ++ [c] := by
        show ((resolvedConverters m).map fun k => KeyConverter.bind k r)
            ++ naturalKeyConverter m.natural_key = _
        rw [hnk, hc]
      have hcm : c.matcher_type
          ∈ ((resolvedConverters m).map fun k =>
              KeyConverter.bind k r).map KeyConverter.matcher_type := by
        rw [bound_types_eq]
        unfold resolvedConverters
        rw [hnk, hc, List.map_append]
        exact List.mem_append.2 (Or.inr (by simp))
      have hdup2 : ¬ ((resolvedConverters
          { m with
            key_converters := (resolvedConverters m).map fun k =>
              KeyConverter.bind k r,
            key_converters_by_type :=
              ((resolvedConverters m).map fun k => KeyConverter.bind k r).map
                fun k => (k.matcher_type, k) }).map
            KeyConverter.matcher_type).Nodup := by
        rw [hres2, List.map_append, List.nodup_append]
        rintro ⟨-, -, hdisj⟩
        exact hdisj hcm (by simp)
      obtain ⟨t, ht2, -⟩ := manager_init_error_of_dup r model _ hdup2
      exact ⟨t, ht2⟩

/-- Witness for C9: a resource meta declaring `natural_key = "title"` and no
other key converters; the first construction succeeds and stores the bound
converter, the second fails. -/
theorem manager_construction_mutates_meta_witness :
    ("book", "m",
        (Meta.mk "book" (some (NaturalKey.single "title"))
          [KeyConverter.mk "property:title" ["title"] (some "book")]
          [("property:title",
            KeyConverter.mk "property:title" ["title"] (some "book"))]
          : Meta)).2.2.key_converters.length
      = (Meta.mk "book" (some (NaturalKey.single "title")) []
          []).key_converters.length + 1
    ∧ ∃ t, manager_init "book" "m"
        ("book", "m",
          (Meta.mk "book" (some (NaturalKey.single "title"))
            [KeyConverter.mk "property:title" ["title"] (some "book")]
            [("property:title",
              KeyConverter.mk "property:title" ["title"] (some "book"))]
            : Meta)).2.2
        = .error (.multipleKeys t
            ("book", "m",
              (Meta.mk "book" (some (NaturalKey.single "title"))
                [KeyConverter.mk "property:title" ["title"] (some "book")]
                [("property:title",
                  KeyConverter.mk "property:title" ["title"] (some "book"))]
                : Meta)).2.2.name) :=
  manager_construction_mutates_meta "book" "m"
    (Meta.mk "book" (some (NaturalKey.single "title")) [] [])
    (NaturalKey.single "title")
    ("book", "m",
      Meta.mk "book" (some (NaturalKey.single "title"))
        [KeyConverter.mk "property:title" ["title"] (some "book")]
        [("property:title",
          KeyConverter.mk "property:title" ["title"] (some "book"))])
    rfl rfl

/-! ## Claim theorems: filter binding -/

/-- Claim C7 (amended): for every schema field and every comparator
surviving the allow-list intersection, the constructed Filter is bound to
the field's explicit storage attribute when that attribute is set to a
non-empty string, and to the field's declared name when the attribute is
unset or set to the empty string (the source computes
`field.attribute or attribute`, and Python `or` treats the empty string as
falsy). -/
theorem filters_bind_storage_attribute
    (schemaFields : List (String × Field))
    (allowed : String → Option (List String))
    (fbt : FieldKind → List String)
    (fieldName : String) (field : Field)
    (hnd : (schemaFields.map Prod.fst).Nodup)
    (hmem : (fieldName, field) ∈ schemaFields)
    (entry : String × List (String × Filter))
    (hentry : entry ∈ manager_filters schemaFields allowed fbt)
    (hname : entry.1 = fieldName)
    (cf : String × Filter) (hcf : cf ∈ entry.2) :
    cf.2.name = cf.1
    ∧ (∀ a, field.attr = some a → a ≠ "" → cf.2.attr = a)
    ∧ ((field.attr = none ∨ field.attr = some "") →
        cf.2.attr = fieldName) := by
  unfold manager_filters at hentry
  obtain ⟨p, hp, hpe⟩ := List.mem_map.1 hentry
  unfold filters_for_fields at hp
  obtain ⟨nf, hnf, hnfe⟩ := List.mem_map.1 hp
  subst hpe
  subst hnfe
  have h1 : nf.1 = fieldName := hname
  have hlk : schemaFields.lookup nf.1 = some field := by
    rw [h1]
    exact lookup_of_mem_nodup schemaFields hnd fieldName field hmem
  obtain ⟨cname, hcn, hce⟩ := List.mem_map.1 hcf
  subst hce
  refine ⟨rfl, ?_, ?_⟩
  · intro a ha hne
    show (create_filter cname ((schemaFields.lookup nf.1).getD
        ⟨FieldKind.string, none⟩) nf.1).attr = a
    rw [hlk]
    simp [create_filter, pyOrString, ha, hne]
  · intro hcase
    show (create_filter cname ((schemaFields.lookup nf.1).getD
        ⟨FieldKind.string, none⟩) nf.1).attr = fieldName
    rw [hlk, ← h1]
    rcases hcase with ha | ha <;> simp [create_filter, pyOrString, ha]

/-- Witness for C7 (amended) on a two-field schema: the field "b" with
explicit attribute "col" yields a Filter bound to "col". -/
theorem filters_bind_storage_attribute_witness :
    (("eq", (⟨"eq", ⟨FieldKind.string, some "col"⟩, "col"⟩ : Filter))
        : String × Filter).2.name
      = (("eq", (⟨"eq", ⟨FieldKind.string, some "col"⟩, "col"⟩ : Filter))
        : String × Filter).1
    ∧ (∀ a, (Field.mk FieldKind.string (some "col")).attr = some a → a ≠ "" →
        (("eq", (⟨"eq", ⟨FieldKind.string, some "col"⟩, "col"⟩ : Filter))
          : String × Filter).2.attr = a)
    ∧ (((Field.mk FieldKind.string (some "col")).attr = none
        ∨ (Field.mk FieldKind.string (some "col")).attr = some "") →
        (("eq", (⟨"eq", ⟨FieldKind.string, some "col"⟩, "col"⟩ : Filter))
          : String × Filter).2.attr = "b") :=
  filters_bind_storage_attribute
    [("a", ⟨FieldKind.string, none⟩), ("b", ⟨FieldKind.string, some "col"⟩)]
    (fun _ => none) (fun _ => ["eq"]) "b" ⟨FieldKind.string, some "col"⟩
    (by decide) (by decide)
    ("b", [("eq", ⟨"eq", ⟨FieldKind.string, some "col"⟩, "col"⟩)])
    (by decide) rfl
    ("eq", ⟨"eq", ⟨FieldKind.string, some "col"⟩, "col"⟩) (by decide)

/-- Claim C7 counterexample: a field whose explicit storage attribute is
set to the empty string. The attribute is set, yet the generated Filter is
bound to the declared field name "x" rather than to the set attribute ""
(Python's `field.attribute or attribute` treats "" as falsy), refuting the
claim as stated. -/
theorem filters_empty_attribute_counterexample :
    manager_filters [("x", ⟨FieldKind.string, some ""⟩)] (fun _ => none)
        (fun _ => ["eq"])
      = [("x", [("eq", ⟨"eq", ⟨FieldKind.string, some ""⟩, "x"⟩)])]
    ∧ ("x" : String) ≠ "" := by
  constructor
  · decide
  · decide

end Potion
